import Mathlib

/-!
Verification of the LawYaar retrieval-augmented legal document pipeline.

Shallow embedding of the core components, translated from the Python source:
  * `src/utils/vector_db.py`   — `VectorDatabase.search`
  * `src/utils/chunking.py`    — `LegalTextChunker` (selective splitting,
                                  fine-grained paragraph splitting,
                                  character-based chunking)
  * `src/utils/cache_manager.py` — `CacheManager` (manifest generation and
                                  change detection)
  * `src/nodes_agents.py`      — `PruningAgentNode.exec_async`,
                                  `ReadingAgentNode` (exec/post),
                                  `AggregationAgentNode.exec`

Python strings are modelled as Lean `String` (both count code points),
Python floats as `ℚ` (the code only subtracts and compares, so exact
arithmetic is a faithful model of the relations the claims are about),
Python dicts as insertion-ordered association lists, and the external
LLM call as a function `String → Except String String` (`.error` models a
raised exception).  The SHA-256 content hash is modelled as an arbitrary
function parameter; theorems that need distinct contents to hash
differently assume the function is injective on the contents involved.
-/

namespace LawYaar

/-! ### Python string primitives (ASCII fragment) -/

/-- The characters Python's `str.strip()` / `str.isspace()` treat as
whitespace, restricted to ASCII. -/
def isPySpace (c : Char) : Bool :=
  c = ' ' || c = '\t' || c = '\n' || c = '\r' || c = '\x0b' || c = '\x0c'

/-- Python `str.strip()` (ASCII whitespace). -/
def pyStrip (s : String) : String :=
  ⟨((s.data.dropWhile isPySpace).reverse.dropWhile isPySpace).reverse⟩

/-- ASCII uppercase of a single character. -/
def asciiUpper (c : Char) : Char :=
  if 'a' ≤ c ∧ c ≤ 'z' then Char.ofNat (c.toNat - 32) else c

/-- Python `str.upper()` (ASCII fragment). -/
def pyUpper (s : String) : String := ⟨s.data.map asciiUpper⟩

/-- ASCII lowercase of a single character. -/
def asciiLower (c : Char) : Char :=
  if 'A' ≤ c ∧ c ≤ 'Z' then Char.ofNat (c.toNat + 32) else c

/-- Python `str.lower()` (ASCII fragment). -/
def pyLower (s : String) : String := ⟨s.data.map asciiLower⟩

/-- Python `str.startswith(pre)`. -/
def pyStartsWith (s pre : String) : Bool := pre.data.isPrefixOf s.data

/-- Helper for `pyReplace`: left-to-right replacement of non-overlapping
occurrences of `old` (assumed non-empty) by `new`, as in Python
`str.replace`. -/
def replaceAux (old new : List Char) : List Char → List Char
  | [] => []
  | c :: rest =>
    if h : old ≠ [] ∧ old.isPrefixOf (c :: rest) then
      new ++ replaceAux old new ((c :: rest).drop old.length)
    else
      c :: replaceAux old new rest
termination_by l => l.length
decreasing_by
  · have hlen : 0 < old.length := List.length_pos.mpr h.1
    simp only [List.length_drop, List.length_cons]
    omega
  · simp

/-- Python `str.replace(old, new)` for non-empty `old`. -/
def pyReplace (s old new : String) : String :=
  ⟨replaceAux old.data new.data s.data⟩

/-! ### VectorDatabase.search  (src/utils/vector_db.py, lines 83–120)

ChromaDB's `collection.query` returns parallel lists
`distances/documents/metadatas/ids`; we model the store's reply as a single
list of records carrying the four parallel fields, and the store itself as a
function of the query text and `n_results`. -/

/-- One raw nearest-neighbour row as returned by the backing store. -/
structure RawHit (M : Type) where
  text : String
  metadata : M
  distance : ℚ
  id : String

/-- One element of the list returned by `VectorDatabase.search`. -/
structure SearchHit (M : Type) where
  text : String
  metadata : M
  score : ℚ
  id : String
deriving DecidableEq

/-- `VectorDatabase.search`: query the backing store, convert each distance
to a similarity score `1 - distance`, and keep only hits whose score is at
least `similarity_threshold`. -/
def VectorDatabase.search {M : Type} (store : String → ℕ → List (RawHit M))
    (query : String) (nResults : ℕ) (similarityThreshold : ℚ) :
    List (SearchHit M) :=
  (store query nResults).filterMap fun r =>
    let similarityScore : ℚ := 1 - r.distance
    if similarityThreshold ≤ similarityScore then
      some ⟨r.text, r.metadata, similarityScore, r.id⟩
    else
      none

/-- Claim C1: for every query, every `n_results` and every
`similarity_threshold`, the hits returned by `VectorDatabase.search` are
exactly the store's rows whose similarity `1 - distance` clears the
threshold; each returned hit's score equals `1 - distance` of its row and is
`≥ similarity_threshold`, and rows below the threshold are discarded. -/
theorem search_similarity_floor {M : Type} (store : String → ℕ → List (RawHit M))
    (query : String) (nResults : ℕ) (θ : ℚ) (h : SearchHit M) :
    h ∈ VectorDatabase.search store query nResults θ ↔
      ∃ r ∈ store query nResults,
        θ ≤ 1 - r.distance ∧ h = ⟨r.text, r.metadata, 1 - r.distance, r.id⟩ := by
  unfold VectorDatabase.search
  simp only [List.mem_filterMap]
  constructor
  · rintro ⟨r, hr, hsome⟩
    by_cases hθ : θ ≤ 1 - r.distance
    · refine ⟨r, hr, hθ, ?_⟩
      simp only [hθ, if_pos] at hsome
      exact (Option.some_injective _ hsome).symm
    · simp [hθ] at hsome
  · rintro ⟨r, hr, hθ, rfl⟩
    exact ⟨r, hr, by simp [hθ]⟩

/-! ### LegalTextChunker  (src/utils/chunking.py)

The chunker configuration as used by `_selective_splitting`,
`_split_paragraph_fine_grained` and `_character_based_chunking`.
`chunkSize` models `self.chunk_size`, which in the default construction
(`LegalTextChunker()`) equals `self.config.CHUNK_SIZE` — the single
configured chunk size the claims speak about. -/

structure ChunkerCfg where
  chunkSize : ℕ
  overlap : ℕ
  splitOnSentences : Bool
  preserveParagraphNumbers : Bool

/-- `re.match(r'^(\[\d+\]\s*)', paragraph)`: the leading paragraph-number
marker `[digits]` followed by greedy whitespace, or `[]` if the paragraph
does not start with one. -/
def paraNumMatch : List Char → List Char
  | '[' :: rest =>
    let ds := rest.takeWhile Char.isDigit
    if ds.isEmpty then []
    else
      match rest.drop ds.length with
      | ']' :: rest2 => '[' :: (ds ++ ']' :: rest2.takeWhile isPySpace)
      | _ => []
  | _ => []

/-- Is the last consumed character one of `.`, `!`, `?` (the lookbehind of
`re.split(r'(?<=[.!?])\s+', content)`)?  `acc` holds the pending sentence
reversed. -/
def headPunct (acc : List Char) : Bool :=
  match acc.head? with
  | some p => p = '.' || p = '!' || p = '?'
  | none => false

/-- `re.split(r'(?<=[.!?])\s+', content)`: scan left to right; a maximal
whitespace run immediately preceded by `.`, `!` or `?` is a separator.
`acc` holds the pending field reversed; `inSep` records that we are still
consuming the (greedy) whitespace run of a separator just matched, so the
run's remaining whitespace is skipped rather than re-tested against the
lookbehind (whose preceding character would be whitespace, not `.!?`). -/
def sentencesAux : List Char → List Char → Bool → List (List Char)
  | [], acc, _ => [acc.reverse]
  | c :: rest, acc, inSep =>
    if inSep && isPySpace c then
      sentencesAux rest acc true
    else if isPySpace c && headPunct acc then
      acc.reverse :: sentencesAux rest [] true
    else
      sentencesAux rest (c :: acc) false

/-- The paragraph-number marker of a paragraph (possibly `""`). -/
def paraNumOf (paragraph : String) : String := ⟨paraNumMatch paragraph.data⟩

/-- `content = paragraph[len(para_num):] if para_num else paragraph`. -/
def contentOf (paragraph : String) : String :=
  if paraNumOf paragraph ≠ "" then ⟨paragraph.data.drop (paraNumOf paragraph).length⟩
  else paragraph

/-- The sentence list `_split_paragraph_fine_grained` computes for a
paragraph. -/
def sentencesOf (paragraph : String) : List String :=
  (sentencesAux (contentOf paragraph).data [] false).map fun l => (⟨l⟩ : String)

/-- One step of the sentence-accumulation loop of
`_split_paragraph_fine_grained`: state is `(chunks, current_chunk)`. -/
def sentenceLoopStep (cfg : ChunkerCfg) (paraNum : String) :
    List String × String → String → List String × String
  | (chunks, currentChunk), sentence =>
    if currentChunk.length + sentence.length ≤ cfg.chunkSize then
      (chunks,
       currentChunk ++
         (if currentChunk ≠ "" ∧ currentChunk ≠ paraNum then " " else "") ++ sentence)
    else
      ((if currentChunk ≠ "" then chunks ++ [currentChunk] else chunks),
       if cfg.preserveParagraphNumbers then paraNum ++ "(cont.) " ++ sentence
       else sentence)

/-- Position `i` of `text` holds a whitespace character
(`text[i].isspace()`; positions outside the text never do). -/
def spaceAt (text : List Char) (i : ℕ) : Bool :=
  match text.get? i with
  | some c => isPySpace c
  | none => false

/-- The backwards word-boundary search of `_character_based_chunking`:
`for i in range(end, bound, -1): if text[i].isspace(): chunk_end = i; break`.
Returns the first (largest) whitespace position in `(bound, i]`, if any
(at `i = 0` the loop range is empty since `0 ≤ bound`). -/
def findCutAux (text : List Char) (bound : ℕ) : ℕ → Option ℕ
  | 0 => none
  | i + 1 =>
    if i + 1 ≤ bound then none
    else if spaceAt text (i + 1) then some (i + 1)
    else findCutAux text bound i

/-- The cut position chosen for a window starting at `start`:
`max(start + chunk_size // 2, end - 100)` is the exclusive lower search
bound, and the cut stays at `end = start + chunk_size` when no whitespace
is found. -/
def cutPoint (cfg : ChunkerCfg) (text : List Char) (start : ℕ) : ℕ :=
  (findCutAux text (max (start + cfg.chunkSize / 2) (start + cfg.chunkSize - 100))
      (start + cfg.chunkSize)).getD (start + cfg.chunkSize)

/-- `_character_based_chunking`, fuel-indexed: the Python `while` loop with
state `start`.  Returns `none` when the fuel runs out; since the loop state
is exactly `start` and `start` must strictly increase for the loop to
terminate, fuel `len(text) + 1` is enough for every run on which the Python
loop terminates. -/
def charChunkAux (cfg : ChunkerCfg) (text : List Char) : ℕ → ℕ → Option (List String)
  | 0, _ => none
  | fuel + 1, start =>
    if start < text.length then
      if text.length ≤ start + cfg.chunkSize then
        some [⟨text.drop start⟩]
      else
        match charChunkAux cfg text fuel (cutPoint cfg text start - cfg.overlap) with
        | none => none
        | some rest =>
          some (⟨(text.drop start).take (cutPoint cfg text start - start)⟩ :: rest)
    else
      some []

/-- Same loop, recording the successive values of the `start` variable
(one per produced chunk) instead of the chunk texts. -/
def charChunkStartsAux (cfg : ChunkerCfg) (text : List Char) :
    ℕ → ℕ → Option (List ℕ)
  | 0, _ => none
  | fuel + 1, start =>
    if start < text.length then
      if text.length ≤ start + cfg.chunkSize then
        some [start]
      else
        match charChunkStartsAux cfg text fuel (cutPoint cfg text start - cfg.overlap) with
        | none => none
        | some rest => some (start :: rest)
    else
      some []

/-- `_character_based_chunking(text)` as called with `start = 0`. -/
def characterBasedChunking (cfg : ChunkerCfg) (text : String) : List String :=
  (charChunkAux cfg text.data (text.length + 1) 0).getD []

/-- `_split_paragraph_fine_grained`: split one oversized paragraph into
smaller chunks, by sentences when `SPLIT_ON_SENTENCES` is set, keeping the
paragraph-number marker (suffixed `"(cont.) "`) on continuations when
`PRESERVE_PARAGRAPH_NUMBERS` is set. -/
def splitParagraphFineGrained (cfg : ChunkerCfg) (paragraph : String) : List String :=
  if paragraph.length ≤ cfg.chunkSize then [paragraph]
  else
    let paraNum := paraNumOf paragraph
    if cfg.splitOnSentences then
      let st := (sentencesOf paragraph).foldl (sentenceLoopStep cfg paraNum) ([], paraNum)
      if st.2 ≠ "" then st.1 ++ [st.2] else st.1
    else
      characterBasedChunking cfg paragraph

/-- `_selective_splitting`: split only the paragraphs whose length exceeds
the configured chunk size; smaller paragraphs pass through unsplit. -/
def selectiveSplitting (cfg : ChunkerCfg) (paragraphs : List String) : List String :=
  (paragraphs.map fun para =>
    if cfg.chunkSize < para.length then splitParagraphFineGrained cfg para
    else [para]).flatten

/-- Longest sentence length of a paragraph, as `_split_paragraph_fine_grained`
would split it. -/
def maxSentLen (paragraph : String) : ℕ :=
  (sentencesOf paragraph).foldr (fun s m => max s.length m) 0

/-- Size bound actually satisfied by the fine-grained splitting of one
paragraph: `chunk_size + 1` for chunks assembled out of fitting sentences
(the joining space is not counted by the fit test), or the length of the
marker + `"(cont.) "` + one oversized sentence. -/
def fineBound (cfg : ChunkerCfg) (paragraph : String) : ℕ :=
  max (cfg.chunkSize + 1) ((paraNumOf paragraph).length + 8 + maxSentLen paragraph)

lemma mem_le_foldr_max (l : List String) (s : String) (hs : s ∈ l) :
    s.length ≤ l.foldr (fun t m => max t.length m) 0 := by
  induction l with
  | nil => cases hs
  | cons a t ih =>
    rcases List.mem_cons.mp hs with rfl | h
    · exact le_max_left _ _
    · exact le_trans (ih h) (le_max_right _ _)

lemma sentenceLoop_invariant (cfg : ChunkerCfg) (paraNum : String) (M : ℕ)
    (ss : List String) (hss : ∀ s ∈ ss, s.length ≤ M) :
    ∀ chunks currentChunk,
      (∀ c ∈ chunks, c.length ≤ max (cfg.chunkSize + 1) (paraNum.length + 8 + M)) →
      currentChunk.length ≤ max (cfg.chunkSize + 1) (paraNum.length + 8 + M) →
      (∀ c ∈ (ss.foldl (sentenceLoopStep cfg paraNum) (chunks, currentChunk)).1,
          c.length ≤ max (cfg.chunkSize + 1) (paraNum.length + 8 + M)) ∧
      (ss.foldl (sentenceLoopStep cfg paraNum) (chunks, currentChunk)).2.length ≤
        max (cfg.chunkSize + 1) (paraNum.length + 8 + M) := by
  induction ss with
  | nil => intro chunks cc hchunks hcc; exact ⟨hchunks, hcc⟩
  | cons s rest ih =>
    intro chunks cc hchunks hcc
    have hsM : s.length ≤ M := hss s (List.mem_cons_self _ _)
    have hrest : ∀ t ∈ rest, t.length ≤ M := fun t ht => hss t (List.mem_cons_of_mem _ ht)
    simp only [List.foldl_cons]
    by_cases hfit : cc.length + s.length ≤ cfg.chunkSize
    · have hstep : sentenceLoopStep cfg paraNum (chunks, cc) s =
          (chunks, cc ++ (if cc ≠ "" ∧ cc ≠ paraNum then " " else "") ++ s) := by
        simp [sentenceLoopStep, hfit]
      rw [hstep]
      refine ih hrest chunks _ hchunks ?_
      have hsep : (if cc ≠ "" ∧ cc ≠ paraNum then (" " : String) else "").length ≤ 1 := by
        split <;> decide
      have : (cc ++ (if cc ≠ "" ∧ cc ≠ paraNum then (" " : String) else "") ++ s).length =
          cc.length + (if cc ≠ "" ∧ cc ≠ paraNum then (" " : String) else "").length +
            s.length := by
        simp [String.length_append]
      rw [this]
      have : cc.length + (if cc ≠ "" ∧ cc ≠ paraNum then (" " : String) else "").length +
          s.length ≤ cfg.chunkSize + 1 := by omega
      exact le_trans this (le_max_left _ _)
    · have hstep : sentenceLoopStep cfg paraNum (chunks, cc) s =
          ((if cc ≠ "" then chunks ++ [cc] else chunks),
           if cfg.preserveParagraphNumbers then paraNum ++ "(cont.) " ++ s else s) := by
        simp [sentenceLoopStep, hfit]
      rw [hstep]
      refine ih hrest _ _ ?_ ?_
      · intro c hcmem
        by_cases hcc0 : cc ≠ ""
        · rw [if_pos hcc0] at hcmem
          rcases List.mem_append.mp hcmem with h | h
          · exact hchunks c h
          · rcases List.mem_singleton.mp h with rfl
            exact hcc
        · rw [if_neg hcc0] at hcmem
          exact hchunks c hcmem
      · split
        · have h8 : ("(cont.) " : String).length = 8 := rfl
          have : (paraNum ++ "(cont.) " ++ s).length =
              paraNum.length + 8 + s.length := by
            simp [String.length_append, h8]
          rw [this]
          exact le_trans (by omega) (le_max_right _ _)
        · exact le_trans (le_trans hsM (by omega)) (le_max_right _ _)

lemma splitParagraphFineGrained_bound (cfg : ChunkerCfg)
    (hsent : cfg.splitOnSentences = true) (p : String) :
    ∀ c ∈ splitParagraphFineGrained cfg p, c.length ≤ fineBound cfg p := by
  intro c hc
  unfold splitParagraphFineGrained at hc
  by_cases hsmall : p.length ≤ cfg.chunkSize
  · simp only [hsmall, if_pos] at hc
    rcases List.mem_singleton.mp hc with rfl
    exact le_trans (le_trans hsmall (Nat.le_succ _)) (le_max_left _ _)
  · simp only [hsmall, if_neg, not_false_eq_true, hsent, if_pos, if_true] at hc
    have hM : ∀ s ∈ sentencesOf p, s.length ≤ maxSentLen p :=
      fun s hs => mem_le_foldr_max _ s hs
    have hinit := sentenceLoop_invariant cfg (paraNumOf p) (maxSentLen p)
      (sentencesOf p) hM [] (paraNumOf p) (by intro c h; cases h)
      (le_trans (by omega) (le_max_right _ _))
    unfold fineBound
    split at hc
    · rcases List.mem_append.mp hc with h | h
      · exact hinit.1 c h
      · rcases List.mem_singleton.mp h with rfl
        exact hinit.2
    · exact hinit.1 c hc

/-- Claim C2 (counterexample): under `split_large_paragraphs` with
`chunk_size = 10`, the paragraph `"[2] xxxxxxxxxxxx"` (one 12-character
"sentence" without any sentence delimiter) yields the chunk
`"[2] (cont.) xxxxxxxxxxxx"` of core length 24 > 10, so not every chunk's
core text is bounded by the configured chunk size. -/
theorem selectiveSplitting_exceeds_chunkSize :
    ¬ (∀ c ∈ selectiveSplitting ⟨10, 0, true, true⟩ ["[2] xxxxxxxxxxxx"],
        c.length ≤ (10 : ℕ)) := by decide

/-- Claim C2 (amended): under `split_large_paragraphs` with sentence
splitting enabled, every chunk's core text produced from `paragraphs` is
bounded by `max (chunk_size + 1) (marker-length + 8 + longest sentence
length)` of its originating paragraph: the configured `chunk_size` bound
can be exceeded by the one-character joining space (the fit test
`len(current_chunk) + len(sentence) <= chunk_size` does not count it) and
by any single sentence longer than
`chunk_size - len(paragraph marker) - len("(cont.) ")`. -/
theorem selectiveSplitting_chunk_length_bound (cfg : ChunkerCfg)
    (paragraphs : List String) (hsent : cfg.splitOnSentences = true)
    (c : String) (hc : c ∈ selectiveSplitting cfg paragraphs) :
    ∃ p ∈ paragraphs, c.length ≤ fineBound cfg p := by
  unfold selectiveSplitting at hc
  rcases List.mem_flatten.mp hc with ⟨l, hl, hcl⟩
  rcases List.mem_map.mp hl with ⟨p, hp, rfl⟩
  refine ⟨p, hp, ?_⟩
  split at hcl
  · exact splitParagraphFineGrained_bound cfg hsent p c hcl
  · rcases List.mem_singleton.mp hcl with rfl
    rename_i hbig
    exact le_trans (le_trans (Nat.le_of_not_lt hbig) (Nat.le_succ _)) (le_max_left _ _)

/-- Witness for the amended C2 bound at a concrete input. -/
theorem selectiveSplitting_chunk_length_bound_witness :
    ∃ p ∈ (["[2] xxxxxxxxxxxx"] : List String),
      ("[2] (cont.) xxxxxxxxxxxx" : String).length ≤
        fineBound ⟨10, 0, true, true⟩ p :=
  selectiveSplitting_chunk_length_bound ⟨10, 0, true, true⟩ ["[2] xxxxxxxxxxxx"]
    rfl "[2] (cont.) xxxxxxxxxxxx" (by decide)

lemma findCutAux_some_spec (text : List Char) (bound : ℕ) :
    ∀ i j, findCutAux text bound i = some j →
      bound < j ∧ j ≤ i ∧ spaceAt text j = true ∧
        ∀ k, j < k → k ≤ i → spaceAt text k = false := by
  intro i
  induction i with
  | zero => intro j h; simp [findCutAux] at h
  | succ i ih =>
    intro j h
    rw [findCutAux] at h
    by_cases hb : i + 1 ≤ bound
    · rw [if_pos hb] at h; cases h
    · rw [if_neg hb] at h
      cases hs : spaceAt text (i + 1) with
      | true =>
        rw [hs, if_pos rfl] at h
        injection h with h'
        subst h'
        exact ⟨by omega, le_refl _, hs, fun k hk hk2 => by omega⟩
      | false =>
        rw [hs] at h
        simp only [Bool.false_eq_true, if_false] at h
        obtain ⟨hj1, hj2, hj3, hj4⟩ := ih j h
        refine ⟨hj1, by omega, hj3, fun k hk hk2 => ?_⟩
        rcases Nat.lt_or_ge k (i + 1) with hlt | hge
        · exact hj4 k hk (by omega)
        · have : k = i + 1 := by omega
          subst this
          exact hs

lemma findCutAux_none_spec (text : List Char) (bound : ℕ) :
    ∀ i, findCutAux text bound i = none →
      ∀ k, bound < k → k ≤ i → spaceAt text k = false := by
  intro i
  induction i with
  | zero => intro _ k hk1 hk2; omega
  | succ i ih =>
    intro h k hk1 hk2
    rw [findCutAux] at h
    by_cases hb : i + 1 ≤ bound
    · omega
    · rw [if_neg hb] at h
      cases hs : spaceAt text (i + 1) with
      | true => rw [hs, if_pos rfl] at h; cases h
      | false =>
        rw [hs] at h
        simp only [Bool.false_eq_true, if_false] at h
        rcases Nat.lt_or_ge k (i + 1) with hlt | hge
        · exact ih h k hk1 (by omega)
        · have : k = i + 1 := by omega
          subst this
          exact hs

lemma cutPoint_le (cfg : ChunkerCfg) (text : List Char) (start : ℕ) :
    cutPoint cfg text start ≤ start + cfg.chunkSize := by
  unfold cutPoint
  cases hf : findCutAux text (max (start + cfg.chunkSize / 2)
      (start + cfg.chunkSize - 100)) (start + cfg.chunkSize) with
  | none => simp
  | some j =>
    simp only [Option.getD_some]
    exact (findCutAux_some_spec text _ _ _ hf).2.1

lemma cutPoint_lower (cfg : ChunkerCfg) (text : List Char) (start : ℕ)
    (h1 : 1 ≤ cfg.chunkSize) :
    start + cfg.chunkSize / 2 < cutPoint cfg text start := by
  unfold cutPoint
  cases hf : findCutAux text (max (start + cfg.chunkSize / 2)
      (start + cfg.chunkSize - 100)) (start + cfg.chunkSize) with
  | none =>
    simp only [Option.getD_none]
    have : cfg.chunkSize / 2 < cfg.chunkSize := Nat.div_lt_self (by omega) (by omega)
    omega
  | some j =>
    simp only [Option.getD_some]
    have := (findCutAux_some_spec text _ _ _ hf).1
    omega

lemma cutPoint_space_spec (cfg : ChunkerCfg) (text : List Char) (start : ℕ) :
    (∀ j, cutPoint cfg text start < j → j ≤ start + cfg.chunkSize →
        spaceAt text j = false) ∧
    (cutPoint cfg text start < start + cfg.chunkSize →
      spaceAt text (cutPoint cfg text start) = true ∧
        max (start + cfg.chunkSize / 2) (start + cfg.chunkSize - 100) <
          cutPoint cfg text start) := by
  unfold cutPoint
  cases hf : findCutAux text (max (start + cfg.chunkSize / 2)
      (start + cfg.chunkSize - 100)) (start + cfg.chunkSize) with
  | none =>
    simp only [Option.getD_none]
    exact ⟨fun j hj1 hj2 => by omega, fun h => absurd h (lt_irrefl _)⟩
  | some j =>
    simp only [Option.getD_some]
    obtain ⟨hj1, hj2, hj3, hj4⟩ := findCutAux_some_spec text _ _ _ hf
    exact ⟨hj4, fun _ => ⟨hj3, hj1⟩⟩

/-- Claim C9 (counterexample to the claim as stated): with
`chunk_size = 0` the precondition `overlap_size ≤ chunk_size / 2` holds
(`0 ≤ 0`), yet the character-chunking loop never terminates on the
one-character text `"a"` — the window start never advances, so the loop
exhausts any amount of fuel. -/
theorem charChunk_nonterminating_at_zero_chunkSize :
    (ChunkerCfg.mk 0 0 true true).overlap ≤
        (ChunkerCfg.mk 0 0 true true).chunkSize / 2 ∧
      ∀ fuel, charChunkAux ⟨0, 0, true, true⟩ ("a".data) fuel 0 = none := by
  refine ⟨Nat.le_refl _, fun fuel => ?_⟩
  induction fuel with
  | zero => rfl
  | succ f ih =>
    have hcut : cutPoint ⟨0, 0, true, true⟩ ("a".data) 0 = 0 := by decide
    rw [charChunkAux]
    simp only [hcut, ih]
    decide

/-- Claim C9 (amended): the character-based chunking loop terminates for
every input text provided `1 ≤ chunk_size` and
`overlap_size ≤ chunk_size / 2`: each iteration advances the window start
by at least `chunk_size / 2 + 1 - overlap_size ≥ 1`, so fuel exceeding
`len(text) - start` always suffices. -/
theorem charChunk_terminates (cfg : ChunkerCfg) (h1 : 1 ≤ cfg.chunkSize)
    (h2 : cfg.overlap ≤ cfg.chunkSize / 2) (text : List Char)
    (fuel start : ℕ) (hpos : 1 ≤ fuel) (hfuel : text.length < start + fuel) :
    (charChunkAux cfg text fuel start).isSome = true := by
  induction fuel generalizing start with
  | zero => omega
  | succ f ih =>
    rw [charChunkAux]
    by_cases hs : start < text.length
    · rw [if_pos hs]
      by_cases hlast : text.length ≤ start + cfg.chunkSize
      · rw [if_pos hlast]; rfl
      · rw [if_neg hlast]
        have hcut := cutPoint_lower cfg text start h1
        have hf1 : 1 ≤ f := by omega
        have hrec := ih (cutPoint cfg text start - cfg.overlap) hf1 (by omega)
        cases hr : charChunkAux cfg text f (cutPoint cfg text start - cfg.overlap) with
        | none => rw [hr] at hrec; cases hrec
        | some rest => simp only [hr]; rfl
    · rw [if_neg hs]; rfl

/-- Witness for the amended C9 termination bound at a concrete input. -/
theorem charChunk_terminates_witness :
    (charChunkAux ⟨10, 2, true, true⟩ ("aaaa bbbb cccc dddd".data) 20 0).isSome =
      true :=
  charChunk_terminates ⟨10, 2, true, true⟩ (by decide) (by decide)
    ("aaaa bbbb cccc dddd".data) 20 0 (by decide) (by decide)

/-- The per-iteration relation the character-chunking loop actually
maintains between one window start `a` and the next `b`: the next start is
`cutPoint - overlap`, the cut never exceeds `a + chunk_size`, no whitespace
lies strictly between the cut and `a + chunk_size`, and whenever the cut
was retracted it lands on a whitespace character within 100 characters of
the raw window end and strictly above `a + chunk_size / 2`. -/
def cutRel (cfg : ChunkerCfg) (text : List Char) (a b : ℕ) : Prop :=
  b + cfg.overlap = cutPoint cfg text a ∧
  cutPoint cfg text a ≤ a + cfg.chunkSize ∧
  (∀ j, cutPoint cfg text a < j → j ≤ a + cfg.chunkSize → spaceAt text j = false) ∧
  (cutPoint cfg text a < a + cfg.chunkSize →
    spaceAt text (cutPoint cfg text a) = true ∧
      a + cfg.chunkSize < cutPoint cfg text a + 100 ∧
      a + cfg.chunkSize / 2 < cutPoint cfg text a)

lemma charChunkStartsAux_shape (cfg : ChunkerCfg) (text : List Char)
    (fuel start : ℕ) (l : List ℕ)
    (h : charChunkStartsAux cfg text fuel start = some l) :
    (text.length ≤ start → l = []) ∧
      (start < text.length → ∃ t, l = start :: t) := by
  cases fuel with
  | zero => cases h
  | succ f =>
    rw [charChunkStartsAux] at h
    by_cases hs : start < text.length
    · rw [if_pos hs] at h
      refine ⟨fun hle => by omega, fun _ => ?_⟩
      by_cases hlast : text.length ≤ start + cfg.chunkSize
      · rw [if_pos hlast] at h
        injection h with h'
        exact ⟨[], h'.symm⟩
      · rw [if_neg hlast] at h
        cases hr : charChunkStartsAux cfg text f
            (cutPoint cfg text start - cfg.overlap) with
        | none => rw [hr] at h; cases h
        | some rest =>
          rw [hr] at h
          injection h with h'
          exact ⟨rest, h'.symm⟩
    · rw [if_neg hs] at h
      injection h with h'
      exact ⟨fun _ => h'.symm, fun hlt => by omega⟩

/-- Claim C7 (counterexample): with `chunk_size = 10`, `overlap = 2` and
text `"aaaa bbbb cccc dddd"`, the loop's successive window starts are
`[0, 7, 12]`: the second start is 7, not `0 + (chunk_size - overlap) = 8`,
because the cut point was retracted to the whitespace at index 9 — the
start does not advance by `chunk_size - overlap_size` each iteration. -/
theorem charChunk_advance_counterexample :
    charChunkStartsAux ⟨10, 2, true, true⟩ ("aaaa bbbb cccc dddd".data) 20 0 =
        some [0, 7, 12] ∧
      (7 : ℕ) ≠ 0 + ((ChunkerCfg.mk 10 2 true true).chunkSize -
        (ChunkerCfg.mk 10 2 true true).overlap) := by
  exact ⟨by decide, by decide⟩

/-- Claim C7 (amended): in the character fallback the cut point of each
non-final chunk is moved back to the nearest whitespace within 100
characters of the raw window end (and above `start + chunk_size / 2`), or
stays at `start + chunk_size` when there is none (in which case the chunk
may split mid-word); the window start advances to `cut_point - overlap`,
which equals `start + (chunk_size - overlap_size)` exactly when no
retraction occurred and is smaller otherwise. -/
theorem charChunk_starts_chain (cfg : ChunkerCfg) (h1 : 1 ≤ cfg.chunkSize)
    (h2 : cfg.overlap ≤ cfg.chunkSize / 2) (text : List Char)
    (fuel start : ℕ) (l : List ℕ)
    (h : charChunkStartsAux cfg text fuel start = some l) :
    l.Chain' (cutRel cfg text) := by
  induction fuel generalizing start l with
  | zero => cases h
  | succ f ih =>
    rw [charChunkStartsAux] at h
    by_cases hs : start < text.length
    · rw [if_pos hs] at h
      by_cases hlast : text.length ≤ start + cfg.chunkSize
      · rw [if_pos hlast] at h
        injection h with h'
        subst h'
        exact List.chain'_singleton _
      · rw [if_neg hlast] at h
        cases hr : charChunkStartsAux cfg text f
            (cutPoint cfg text start - cfg.overlap) with
        | none => rw [hr] at h; cases h
        | some rest =>
          rw [hr] at h
          injection h with h'
          subst h'
          have hchain := ih _ _ hr
          cases rest with
          | nil => exact List.chain'_singleton _
          | cons b t =>
            have hshape := charChunkStartsAux_shape cfg text f
              (cutPoint cfg text start - cfg.overlap) (b :: t) hr
            by_cases hlt : cutPoint cfg text start - cfg.overlap < text.length
            · obtain ⟨t', ht'⟩ := hshape.2 hlt
              have hb : b = cutPoint cfg text start - cfg.overlap := by
                have := ht'
                injection this
              refine List.chain'_cons.mpr ⟨?_, hchain⟩
              subst hb
              have hlow := cutPoint_lower cfg text start h1
              have hle := cutPoint_le cfg text start
              obtain ⟨hnone, hadj⟩ := cutPoint_space_spec cfg text start
              refine ⟨by omega, hle, hnone, fun hless => ?_⟩
              obtain ⟨hsp, hmax⟩ := hadj hless
              refine ⟨hsp, ?_, by omega⟩
              have := le_max_right (start + cfg.chunkSize / 2)
                (start + cfg.chunkSize - 100)
              omega
            · have : (b : ℕ) :: t = [] :=
                hshape.1 (Nat.le_of_not_lt hlt)
              cases this
    · rw [if_neg hs] at h
      injection h with h'
      subst h'
      exact List.chain'_nil

/-- Witness for the amended C7 chain property at a concrete input. -/
theorem charChunk_starts_chain_witness :
    List.Chain' (cutRel ⟨10, 2, true, true⟩ ("aaaa bbbb cccc dddd".data))
      [0, 7, 12] :=
  charChunk_starts_chain ⟨10, 2, true, true⟩ (by decide) (by decide)
    ("aaaa bbbb cccc dddd".data) 20 0 [0, 7, 12] (by decide)

/-! ### CacheManager  (src/utils/cache_manager.py)

A corpus file as seen by `os.walk`: its full path (the manifest key), its
base name (`file`, tested against the `.txt` suffix and stored under
`'name'`), its content bytes, and its modification time.  The SHA-256
content hash is abstracted as a function `H` into an arbitrary type with
decidable equality; `os.stat().st_size` is the content length. -/

structure FsEntry where
  path : String
  file : String
  content : List ℕ
  mtime : ℤ
deriving DecidableEq

/-- One manifest value: `{size, modified, name}` plus `hash` when
`use_hash` was set at generation time. -/
structure FileInfo (α : Type) where
  size : ℕ
  modified : ℤ
  name : String
  hash : Option α
deriving DecidableEq

/-- `file.endswith('.txt')`. -/
def endsTxt (s : String) : Bool := ".txt".data.isSuffixOf s.data

/-- The manifest record generated for one file. -/
def mkInfo {α : Type} (H : List ℕ → α) (useHash : Bool) (e : FsEntry) : FileInfo α :=
  ⟨e.content.length, e.mtime, e.file, if useHash then some (H e.content) else none⟩

/-- `generate_manifest(documents_dir, use_hash)`: walk the files, keep
those whose name ends in `.txt`, and map each full path to its file info.
Modelled as an insertion-ordered association list (`os.walk` yields each
path once). -/
def generateManifest {α : Type} (H : List ℕ → α) (fs : List FsEntry)
    (useHash : Bool) : List (String × FileInfo α) :=
  (fs.filter fun e => endsTxt e.file).map fun e => (e.path, mkInfo H useHash e)

/-- The per-file modification test of `has_changes`: size first, then hash
when `use_hash`, else timestamp.  `cached` is
`cached_manifest.get(file_path, {})`, whose `.get` of a missing key is
`None`. -/
def isModifiedEntry {α : Type} [DecidableEq α] (useHash : Bool)
    (cur : FileInfo α) (cached : Option (FileInfo α)) : Bool :=
  if some cur.size ≠ cached.map FileInfo.size then true
  else if useHash then cur.hash ≠ cached.bind FileInfo.hash
  else some cur.modified ≠ cached.map FileInfo.modified

/-- The key list of a manifest (`set(manifest.keys())`; the code only
takes lengths and membership, which the list models under the no-duplicate
invariant of `os.walk`). -/
def manifestKeys {α : Type} (m : List (String × FileInfo α)) : List String :=
  m.map Prod.fst

/-- `current_files - cached_files`. -/
def addedFiles {α : Type} (current cached : List (String × FileInfo α)) : List String :=
  (manifestKeys current).filter fun p => decide (p ∉ manifestKeys cached)

/-- `cached_files - current_files`. -/
def removedFiles {α : Type} (current cached : List (String × FileInfo α)) : List String :=
  (manifestKeys cached).filter fun p => decide (p ∉ manifestKeys current)

/-- The paths collected into `modified_files`. -/
def modifiedFiles {α : Type} [DecidableEq α] (useHash : Bool)
    (current cached : List (String × FileInfo α)) : List String :=
  (manifestKeys current).filter fun p =>
    match current.lookup p with
    | some cur => isModifiedEntry useHash cur (cached.lookup p)
    | none => false

/-- `"Number of files changed: {len(cached)} -> {len(current)}"`. -/
def countChangedMsg {α : Type} (cached current : List (String × FileInfo α)) : String :=
  "Number of files changed: " ++ toString cached.length ++ " -> " ++
    toString current.length

/-- The non-quick branch of `has_changes`, given the freshly generated
`current` manifest and the `cached` one. -/
def fullCheck {α : Type} [DecidableEq α] (useHash : Bool)
    (current cached : List (String × FileInfo α)) : Bool × String :=
  if current.length ≠ cached.length then (true, countChangedMsg cached current)
  else if addedFiles current cached ≠ [] then
    (true, "Added files: " ++ toString (addedFiles current cached).length ++
      " new file(s)")
  else if removedFiles current cached ≠ [] then
    (true, "Removed files: " ++ toString (removedFiles current cached).length ++
      " file(s) deleted")
  else if modifiedFiles useHash current cached ≠ [] then
    (true, "Modified files: " ++ toString (modifiedFiles useHash current cached).length ++
      " file(s) changed")
  else (false, "No changes detected")

/-- `has_changes(documents_dir, use_hash, quick_check)`: `cached` is the
loaded manifest, `fs` the current directory contents. -/
def hasChanges {α : Type} [DecidableEq α] (H : List ℕ → α)
    (cached : List (String × FileInfo α)) (fs : List FsEntry)
    (useHash quickCheck : Bool) : Bool × String :=
  if cached.isEmpty then (true, "No cache found - first time indexing")
  else if quickCheck then
    if (generateManifest H fs false).length ≠ cached.length then
      (true, countChangedMsg cached (generateManifest H fs false))
    else (false, "Quick check passed - assuming no changes")
  else fullCheck useHash (generateManifest H fs useHash) cached

/-- `update_cache(documents_dir, use_hash)`: the manifest persisted after a
successful index build. -/
def updateCache {α : Type} (H : List ℕ → α) (fs : List FsEntry)
    (useHash : Bool) : List (String × FileInfo α) :=
  generateManifest H fs useHash

lemma lookup_map_pair {α : Type} (f g : FsEntry → String × FileInfo α)
    (hkey : ∀ e, (f e).1 = (g e).1) (l : List FsEntry) (p : String) :
    ((l.map f).lookup p = none ∧ (l.map g).lookup p = none) ∨
      ∃ e ∈ l, (l.map f).lookup p = some (f e).2 ∧
        (l.map g).lookup p = some (g e).2 := by
  induction l with
  | nil => left; exact ⟨rfl, rfl⟩
  | cons a t ih =>
    by_cases hp : p = (g a).1
    · right
      refine ⟨a, List.mem_cons_self _ _, ?_, ?_⟩
      · simp [List.lookup, hkey a, hp]
      · simp [List.lookup, hp]
    · have hpf : p ≠ (f a).1 := by rw [hkey a]; exact hp
      have hbf : (p == (f a).1) = false := beq_eq_false_iff_ne.mpr hpf
      have hbg : (p == (g a).1) = false := beq_eq_false_iff_ne.mpr hp
      rcases ih with ⟨h1, h2⟩ | ⟨e, he, h1, h2⟩
      · left
        constructor
        · simp [List.lookup, hbf, h1]
        · simp [List.lookup, hbg, h2]
      · right
        refine ⟨e, List.mem_cons_of_mem _ he, ?_, ?_⟩
        · simp [List.lookup, hbf, h1]
        · simp [List.lookup, hbg, h2]

lemma fullCheck_all_clear {α : Type} [DecidableEq α] (useHash : Bool)
    (current cached : List (String × FileInfo α))
    (hlen : current.length = cached.length)
    (hadd : addedFiles current cached = [])
    (hrem : removedFiles current cached = [])
    (hmod : modifiedFiles useHash current cached = []) :
    fullCheck useHash current cached = (false, "No changes detected") := by
  unfold fullCheck
  rw [if_neg (by simp [hlen]), if_neg (by simp [hadd]), if_neg (by simp [hrem]),
    if_neg (by simp [hmod])]

lemma fullCheck_count_mismatch {α : Type} [DecidableEq α] (useHash : Bool)
    (current cached : List (String × FileInfo α))
    (hlen : current.length ≠ cached.length) :
    fullCheck useHash current cached = (true, countChangedMsg cached current) := by
  unfold fullCheck
  rw [if_pos hlen]

lemma fullCheck_modified {α : Type} [DecidableEq α] (useHash : Bool)
    (current cached : List (String × FileInfo α))
    (hlen : current.length = cached.length)
    (hadd : addedFiles current cached = [])
    (hrem : removedFiles current cached = [])
    (hmod : modifiedFiles useHash current cached ≠ []) :
    fullCheck useHash current cached =
      (true, "Modified files: " ++
        toString (modifiedFiles useHash current cached).length ++
        " file(s) changed") := by
  unfold fullCheck
  rw [if_neg (by simp [hlen]), if_neg (by simp [hadd]), if_neg (by simp [hrem]),
    if_pos hmod]

/-- Claim C5: after `update_cache`, the full check (`use_hash=True`,
`quick_check=False`) returns `(False, "No changes detected")` no matter how
every file's modification time has changed in between — the comparison
depends only on the file set, sizes and content hashes, never on the stored
timestamps.  Being stateless, this holds for every subsequent call. -/
theorem hasChanges_ignores_mtime {α : Type} [DecidableEq α] (H : List ℕ → α)
    (fs : List FsEntry) (mt : FsEntry → ℤ)
    (hne : fs.filter (fun e => endsTxt e.file) ≠ []) :
    hasChanges H (updateCache H fs true)
        (fs.map fun e => { e with mtime := mt e }) true false =
      (false, "No changes detected") := by
  set l := fs.filter (fun e => endsTxt e.file) with hl
  have hfilter : (fs.map fun e => { e with mtime := mt e } : List FsEntry).filter
      (fun e => endsTxt e.file) = l.map fun e => { e with mtime := mt e } := by
    rw [List.filter_map]
    rfl
  have hcached : updateCache H fs true = l.map fun e => (e.path, mkInfo H true e) := rfl
  have hcurrent : generateManifest H (fs.map fun e => { e with mtime := mt e }) true =
      l.map fun e => (e.path, mkInfo H true { e with mtime := mt e }) := by
    unfold generateManifest
    rw [hfilter, List.map_map]
    rfl
  unfold hasChanges
  rw [if_neg (by
    simp only [hcached, List.isEmpty_iff, List.map_eq_nil_iff]
    simpa using hne)]
  rw [if_neg Bool.false_ne_true]
  rw [hcurrent, hcached]
  have hkeysc : manifestKeys (l.map fun e => (e.path, mkInfo H true { e with mtime := mt e })) =
      l.map FsEntry.path := by
    unfold manifestKeys
    rw [List.map_map]
    rfl
  have hkeysd : manifestKeys (l.map fun e => (e.path, mkInfo H true e)) =
      l.map FsEntry.path := by
    unfold manifestKeys
    rw [List.map_map]
    rfl
  apply fullCheck_all_clear
  · simp
  · unfold addedFiles
    rw [hkeysc, hkeysd]
    refine List.filter_eq_nil_iff.mpr fun p hp => by simp [hp]
  · unfold removedFiles
    rw [hkeysc, hkeysd]
    refine List.filter_eq_nil_iff.mpr fun p hp => by simp [hp]
  · unfold modifiedFiles
    rw [hkeysc]
    refine List.filter_eq_nil_iff.mpr fun p hp => ?_
    rcases lookup_map_pair (fun e => (e.path, mkInfo H true { e with mtime := mt e }))
        (fun e => (e.path, mkInfo H true e)) (fun e => rfl) l p with
      ⟨h1, h2⟩ | ⟨e, he, h1, h2⟩
    · simp [h1]
    · simp only [h1, h2]
      simp [isModifiedEntry, mkInfo]

lemma lookup_eq_none_of_not_mem {β : Type} (A : List (String × β)) (p : String)
    (hp : p ∉ A.map Prod.fst) : A.lookup p = none := by
  induction A with
  | nil => rfl
  | cons a t ih =>
    have hpa : p ≠ a.1 := fun h => hp (by simp [h])
    have hb : (p == a.1) = false := beq_eq_false_iff_ne.mpr hpa
    have ht : p ∉ t.map Prod.fst := fun h => hp (List.mem_cons_of_mem _ h)
    simp [List.lookup, hb, ih ht]

lemma lookup_append_assoc {β : Type} (A B : List (String × β)) (p : String) :
    (A ++ B).lookup p =
      match A.lookup p with
      | some v => some v
      | none => B.lookup p := by
  induction A with
  | nil => rfl
  | cons a t ih =>
    by_cases hpa : p = a.1
    · have hb : (p == a.1) = true := beq_iff_eq.mpr hpa
      simp [List.lookup, hb]
    · have hb : (p == a.1) = false := beq_eq_false_iff_ne.mpr hpa
      simp [List.lookup, hb, ih]

lemma lookup_some_of_mem {β : Type} (A : List (String × β)) (p : String)
    (hp : p ∈ A.map Prod.fst) : ∃ v, A.lookup p = some v := by
  induction A with
  | nil => cases hp
  | cons a t ih =>
    by_cases hpa : p = a.1
    · have hb : (p == a.1) = true := beq_iff_eq.mpr hpa
      exact ⟨a.2, by simp [List.lookup, hb]⟩
    · have hb : (p == a.1) = false := beq_eq_false_iff_ne.mpr hpa
      have ht : p ∈ t.map Prod.fst := by
        rcases List.mem_map.mp hp with ⟨x, hx, hx2⟩
        rcases List.mem_cons.mp hx with rfl | hx'
        · exact absurd hx2.symm hpa
        · exact List.mem_map.mpr ⟨x, hx', hx2⟩
      obtain ⟨v, hv⟩ := ih ht
      exact ⟨v, by simp [List.lookup, hb, hv]⟩

lemma isModifiedEntry_self {α : Type} [DecidableEq α] (useHash : Bool)
    (v : FileInfo α) : isModifiedEntry useHash v (some v) = false := by
  unfold isModifiedEntry
  cases useHash <;> simp

/-- Claim C4: starting from the cached manifest of `fs`, (1) adding a new
`.txt` file, (2) removing a `.txt` file, and (3) altering one byte inside a
`.txt` file without changing its size each independently make the full
check (`use_hash=True`) return `True`; the accompanying reason names the
category: a file-count message whose counts increase by one for an
addition, a file-count message whose counts decrease by one for a removal,
and the modified-files message for an in-place edit (assuming the content
hash is injective, i.e. collision-free on the contents involved). -/
theorem hasChanges_detects_each_category {α : Type} [DecidableEq α]
    (H : List ℕ → α) (hinj : Function.Injective H) (fs : List FsEntry)
    (hone : fs.filter (fun e => endsTxt e.file) ≠ [])
    (hnd : (fs.map FsEntry.path).Nodup) :
    (∀ a : FsEntry, endsTxt a.file = true → a.path ∉ fs.map FsEntry.path →
      hasChanges H (updateCache H fs true) (fs ++ [a]) true false =
        (true, "Number of files changed: " ++
          toString (fs.filter fun e => endsTxt e.file).length ++ " -> " ++
          toString ((fs.filter fun e => endsTxt e.file).length + 1))) ∧
    (∀ pre e post, fs = pre ++ e :: post → endsTxt e.file = true →
      hasChanges H (updateCache H fs true) (pre ++ post) true false =
        (true, "Number of files changed: " ++
          toString (((pre ++ post).filter fun x => endsTxt x.file).length + 1) ++
          " -> " ++
          toString (((pre ++ post).filter fun x => endsTxt x.file).length))) ∧
    (∀ pre e post (i : ℕ) (b : ℕ), fs = pre ++ e :: post →
      endsTxt e.file = true → i < e.content.length →
      e.content.get? i ≠ some b →
      hasChanges H (updateCache H fs true)
          (pre ++ { e with content := e.content.set i b } :: post) true false =
        (true, "Modified files: 1 file(s) changed")) := by
  have hcachedne : ¬ (updateCache H fs true).isEmpty = true := by
    simp only [updateCache, generateManifest, List.isEmpty_iff, List.map_eq_nil_iff]
    exact hone
  have hcachedlen : (updateCache H fs true).length =
      (fs.filter fun e => endsTxt e.file).length := by
    simp [updateCache, generateManifest]
  refine ⟨?_, ?_, ?_⟩
  · -- (1) added file: count mismatch, counts increase by one
    intro a ha _
    unfold hasChanges
    rw [if_neg hcachedne, if_neg Bool.false_ne_true]
    have hcur : generateManifest H (fs ++ [a]) true =
        generateManifest H fs true ++ [(a.path, mkInfo H true a)] := by
      unfold generateManifest
      rw [List.filter_append, List.map_append]
      simp [ha]
    rw [fullCheck_count_mismatch]
    · unfold countChangedMsg
      rw [hcur]
      have h1 : (generateManifest H fs true ++ [(a.path, mkInfo H true a)]).length =
          (fs.filter fun e => endsTxt e.file).length + 1 := by
        simp [generateManifest]
      have h2 : (updateCache H fs true).length =
          (fs.filter fun e => endsTxt e.file).length := hcachedlen
      rw [h1, h2]
    · rw [hcur]
      simp only [List.length_append, List.length_cons, List.length_nil]
      have := hcachedlen
      unfold updateCache at this
      omega
  · -- (2) removed file: count mismatch, counts decrease by one
    intro pre e post hfs he
    unfold hasChanges
    rw [if_neg hcachedne, if_neg Bool.false_ne_true]
    have hclen : (updateCache H fs true).length =
        ((pre ++ post).filter fun x => endsTxt x.file).length + 1 := by
      rw [hcachedlen, hfs]
      simp only [List.filter_append, List.filter_cons, if_pos he, List.length_append,
        List.length_cons]
      omega
    have hcurlen : (generateManifest H (pre ++ post) true).length =
        ((pre ++ post).filter fun x => endsTxt x.file).length := by
      simp [generateManifest]
    rw [fullCheck_count_mismatch]
    · unfold countChangedMsg
      rw [hclen, hcurlen]
    · rw [hclen, hcurlen]
      omega
  · -- (3) one byte altered in place: modified-files message
    intro pre e post i b hfs he hi hb
    unfold hasChanges
    rw [if_neg hcachedne, if_neg Bool.false_ne_true]
    set e' : FsEntry := { e with content := e.content.set i b } with he'
    set A := pre.filter (fun x => endsTxt x.file) with hA
    set B := post.filter (fun x => endsTxt x.file) with hB
    have hfil : fs.filter (fun x => endsTxt x.file) = A ++ e :: B := by
      rw [hfs, List.filter_append, List.filter_cons, if_pos he]
    have hfil' : (pre ++ e' :: post).filter (fun x => endsTxt x.file) =
        A ++ e' :: B := by
      rw [List.filter_append, List.filter_cons]
      have : endsTxt e'.file = true := he
      rw [if_pos this]
    have hcached : updateCache H fs true =
        A.map (fun x => (x.path, mkInfo H true x)) ++
          (e.path, mkInfo H true e) :: B.map (fun x => (x.path, mkInfo H true x)) := by
      unfold updateCache generateManifest
      rw [hfil, List.map_append, List.map_cons]
    have hcur : generateManifest H (pre ++ e' :: post) true =
        A.map (fun x => (x.path, mkInfo H true x)) ++
          (e.path, mkInfo H true e') :: B.map (fun x => (x.path, mkInfo H true x)) := by
      unfold generateManifest
      rw [hfil', List.map_append, List.map_cons]
    -- path nodup facts for the filtered corpus
    have hndfil : ((A ++ e :: B).map FsEntry.path).Nodup := by
      rw [← hfil]
      exact hnd.sublist (List.Sublist.map _ (List.filter_sublist fs))
    have hsplit : A.map FsEntry.path ++ e.path :: B.map FsEntry.path =
        (A ++ e :: B).map FsEntry.path := by
      simp
    have hndA : e.path ∉ A.map FsEntry.path := by
      rw [← hsplit] at hndfil
      intro hmem
      exact (List.disjoint_of_nodup_append hndfil) hmem (List.mem_cons_self _ _)
    have hndB : e.path ∉ B.map FsEntry.path := by
      rw [← hsplit] at hndfil
      have := (List.nodup_append.mp hndfil).2.1
      exact (List.nodup_cons.mp this).1
    have hdisj : ∀ p ∈ A.map FsEntry.path, p ∉ e.path :: B.map FsEntry.path := by
      rw [← hsplit] at hndfil
      intro p hp
      exact fun hmem => (List.disjoint_of_nodup_append hndfil) hp hmem
    -- the two manifests agree off e.path and differ precisely at e.path
    have hkeyA : ∀ (l : List FsEntry),
        (l.map (fun x => (x.path, mkInfo H true x))).map Prod.fst =
          l.map FsEntry.path := by
      intro l; rw [List.map_map]; rfl
    have hmodpred : ∀ p : String,
        (match (generateManifest H (pre ++ e' :: post) true).lookup p with
          | some cur => isModifiedEntry true cur ((updateCache H fs true).lookup p)
          | none => false) =
          decide (p = e.path) := by
      intro p
      rw [hcached, hcur]
      by_cases hpe : p = e.path
      · subst hpe
        have hnone : (A.map (fun x => (x.path, mkInfo H true x))).lookup e.path =
            none := by
          apply lookup_eq_none_of_not_mem
          rw [hkeyA]; exact hndA
        rw [lookup_append_assoc, hnone, lookup_append_assoc, hnone]
        have hbeq : (e.path == e.path) = true := beq_iff_eq.mpr rfl
        simp only [List.lookup, hbeq]
        have hsize : e'.content.length = e.content.length := by
          rw [he']; exact List.length_set _ _ _
        have hhashne : H e'.content ≠ H e.content := by
          intro hEq
          have hcontent : e'.content = e.content := hinj hEq
          have : e.content.get? i = some b := by
            rw [← hcontent, he']
            simpa using (List.getElem?_set_eq_of_lt b (l := e.content) hi)
          exact hb this
        simp [isModifiedEntry, mkInfo, hsize, hhashne]
      · -- off the edited path both manifests answer identically
        have hsame : ∀ X : List (String × FileInfo α),
            ((A.map (fun x => (x.path, mkInfo H true x))).lookup p = none → True) :=
          fun _ _ => trivial
        rw [lookup_append_assoc, lookup_append_assoc]
        cases hlook : (A.map (fun x => (x.path, mkInfo H true x))).lookup p with
        | some v =>
          simp only [hlook]
          simp [isModifiedEntry_self, hpe]
        | none =>
          simp only [hlook]
          have hbeq : (p == e.path) = false := beq_eq_false_iff_ne.mpr hpe
          simp only [List.lookup, hbeq]
          cases hlookB : (B.map (fun x => (x.path, mkInfo H true x))).lookup p with
          | some v => simp [isModifiedEntry_self, hpe]
          | none => simp [hpe]
    have hmodeq : modifiedFiles true (generateManifest H (pre ++ e' :: post) true)
        (updateCache H fs true) = [e.path] := by
      have hkeysCur : manifestKeys (generateManifest H (pre ++ e' :: post) true) =
          A.map FsEntry.path ++ e.path :: B.map FsEntry.path := by
        unfold manifestKeys
        rw [hcur, List.map_append, List.map_cons]
        simp only [hkeyA]
      have hfA : (A.map FsEntry.path).filter (fun p =>
          match (generateManifest H (pre ++ e' :: post) true).lookup p with
          | some cur => isModifiedEntry true cur ((updateCache H fs true).lookup p)
          | none => false) = [] := by
        refine List.filter_eq_nil_iff.mpr fun p hp => ?_
        rw [hmodpred p]
        have : p ≠ e.path := fun hEq =>
          (hdisj p hp) (hEq ▸ List.mem_cons_self _ _)
        simp [this]
      have hfB : (B.map FsEntry.path).filter (fun p =>
          match (generateManifest H (pre ++ e' :: post) true).lookup p with
          | some cur => isModifiedEntry true cur ((updateCache H fs true).lookup p)
          | none => false) = [] := by
        refine List.filter_eq_nil_iff.mpr fun p hp => ?_
        rw [hmodpred p]
        have : p ≠ e.path := fun hEq => hndB (hEq ▸ hp)
        simp [this]
      unfold modifiedFiles
      rw [hkeysCur, List.filter_append, List.filter_cons, hfA, hmodpred e.path, hfB]
      simp
    rw [fullCheck_modified]
    · rw [hmodeq]
      have hone' : toString ([e.path].length) = "1" := by
        rw [List.length_singleton]
        decide
      rw [hone']
      decide
    · rw [hcached, hcur]; simp
    · unfold addedFiles
      refine List.filter_eq_nil_iff.mpr fun p hp => ?_
      have hkeys : manifestKeys (generateManifest H (pre ++ e' :: post) true) =
          manifestKeys (updateCache H fs true) := by
        unfold manifestKeys
        rw [hcached, hcur]
        simp
      rw [hkeys] at hp
      simp [hp]
    · unfold removedFiles
      refine List.filter_eq_nil_iff.mpr fun p hp => ?_
      have hkeys : manifestKeys (generateManifest H (pre ++ e' :: post) true) =
          manifestKeys (updateCache H fs true) := by
        unfold manifestKeys
        rw [hcached, hcur]
        simp
      rw [hkeys]
      simp [hp]
    · rw [hmodeq]
      simp

/-- Witness for C4 at a concrete one-file corpus: adding `b.txt`, removing
`a.txt`, and flipping one byte of `a.txt` are each detected with the
respective reason. -/
theorem hasChanges_detects_each_category_witness :
    (hasChanges (fun c : List ℕ => c)
        (updateCache (fun c : List ℕ => c) [⟨"/d/a.txt", "a.txt", [1, 2], 0⟩] true)
        ([⟨"/d/a.txt", "a.txt", [1, 2], 0⟩] ++ [⟨"/d/b.txt", "b.txt", [3], 0⟩])
        true false =
      (true, "Number of files changed: 1 -> 2")) ∧
    (hasChanges (fun c : List ℕ => c)
        (updateCache (fun c : List ℕ => c) [⟨"/d/a.txt", "a.txt", [1, 2], 0⟩] true)
        ([] ++ []) true false =
      (true, "Number of files changed: 1 -> 0")) ∧
    (hasChanges (fun c : List ℕ => c)
        (updateCache (fun c : List ℕ => c) [⟨"/d/a.txt", "a.txt", [1, 2], 0⟩] true)
        ([] ++ ⟨"/d/a.txt", "a.txt", [1, 2].set 0 9, 0⟩ :: []) true false =
      (true, "Modified files: 1 file(s) changed")) := by
  obtain ⟨h1, h2, h3⟩ := hasChanges_detects_each_category (fun c : List ℕ => c)
    (fun a b h => h) [⟨"/d/a.txt", "a.txt", [1, 2], 0⟩] (by decide) (by decide)
  exact ⟨h1 ⟨"/d/b.txt", "b.txt", [3], 0⟩ (by decide) (by decide),
    h2 [] ⟨"/d/a.txt", "a.txt", [1, 2], 0⟩ [] rfl (by decide),
    h3 [] ⟨"/d/a.txt", "a.txt", [1, 2], 0⟩ [] 0 9 rfl (by decide) (by decide)
      (by decide)⟩

/-- Witness for C5 at a concrete one-file corpus whose modification time
changed from 5 to 99. -/
theorem hasChanges_ignores_mtime_witness :
    hasChanges (fun c : List ℕ => c)
        (updateCache (fun c : List ℕ => c) [⟨"/d/a.txt", "a.txt", [1, 2], 5⟩] true)
        (([⟨"/d/a.txt", "a.txt", [1, 2], 5⟩] : List FsEntry).map
          fun e => { e with mtime := 99 })
        true false =
      (false, "No changes detected") :=
  hasChanges_ignores_mtime (fun c : List ℕ => c)
    [⟨"/d/a.txt", "a.txt", [1, 2], 5⟩] (fun _ => 99) (by decide)

/-! ### PruningAgentNode.exec_async  (src/nodes_agents.py, lines 149–204)

The external judge (LLM) is a function `String → Except String String`:
`.ok reply` is a returned completion, `.error msg` a raised exception with
message `msg`.  A retrieved chunk as handed to `exec_async` is read only
through `chunk.get('text', '')`, modelled as a `text` field. -/

structure RChunk where
  text : String
deriving DecidableEq

/-- `"\n\n--- CHUNK SEPARATOR ---\n\n".join(chunk_texts)`'s separator. -/
def chunkSeparator : String := "\n\n--- CHUNK SEPARATOR ---\n\n"

/-- The pruning prompt f-string. -/
def pruningPrompt (userQuery documentName combinedChunkContent : String) : String :=
  "You are a legal research assistant. Your task is to determine if a legal case document is relevant to a specific query based on the chunks that were retrieved from the vector database.\n\nQUERY: "
  ++ userQuery ++
  "\n\nDOCUMENT: " ++ documentName ++
  "\nRETRIEVED CHUNKS FROM VECTOR DATABASE:\n" ++ combinedChunkContent ++
  "\n\nANALYSIS CONTEXT:\n- These chunks were already identified as potentially relevant by vector similarity\n- You are evaluating if the document as a whole (represented by these chunks) addresses the user's query\n- Consider both direct relevance and indirect relevance (precedential value, similar legal principles)\n\nINSTRUCTIONS:\n1. Carefully analyze if these retrieved chunks show that this legal case's content is STRICTLY RELEVANT TO the USER QUERY\n2. Consider both direct relevance and indirect relevance (precedential value)\n3. Respond with ONLY \"YES\" or \"NO\" followed by a brief one-line explanation\n\n\nRESPONSE FORMAT:\nYES/NO - [Brief explanation for this]\n\n\nRESPONSE:"

/-- The non-empty chunk texts gathered for one document. -/
def chunkTextsOf (retrievedChunks : List RChunk) : List String :=
  (retrievedChunks.map RChunk.text).filter fun t => t ≠ ""

/-- `PruningAgentNode.exec_async` for one `(document, query, chunks)`
triple.  Returns the `(document_name, is_relevant, explanation)` tuple; the
`try/except` around the judge call is the `Except` match, so the function
never raises. -/
def pruningExec (judge : String → Except String String)
    (documentName userQuery : String) (retrievedChunks : List RChunk) :
    String × Bool × String :=
  if retrievedChunks.isEmpty then
    (documentName, false, "No retrieved chunks available for analysis")
  else if (chunkTextsOf retrievedChunks).isEmpty then
    (documentName, false, "No chunk text available for analysis")
  else
    match judge (pruningPrompt userQuery documentName
        (String.intercalate chunkSeparator (chunkTextsOf retrievedChunks))) with
    | .ok response =>
      (documentName, pyStartsWith (pyUpper (pyStrip response)) "YES",
        pyStrip response)
    | .error e => (documentName, false, "Error: " ++ e)

/-! ### ReadingAgentNode  (src/nodes_agents.py, lines 230–383)

The pre-computed query classification, a structure with the five required
fields (the `.get` defaults of the source only apply to missing dict keys,
which the structure model makes always-present).  Document metadata is a
Python dict modelled as an association list. -/

structure QueryClassification where
  queryType : String
  confidence : ℚ
  reasoning : String
  focusAreas : List String
  responseSections : List String

/-- `_get_focused_extraction_prompt`'s `focus_text`. -/
def focusText (cls : QueryClassification) : String :=
  String.intercalate "\n" (cls.focusAreas.map fun area => "- " ++ area)

/-- `_get_focused_extraction_prompt`'s `response_format`. -/
def responseFormatText (cls : QueryClassification) : String :=
  String.intercalate "\n" (cls.responseSections.map fun sec =>
    "**" ++ sec ++ ":** [Content for " ++ pyLower sec ++ "]") ++
  "\n**Direct Quotes:** [Specific quotes with paragraph references]"

/-- `_get_focused_extraction_prompt`. -/
def extractionPrompt (userQuery : String) (cls : QueryClassification)
    (documentName docContent : String) : String :=
  "You are a legal research assistant. Your task is to extract ONLY the information that directly answers the user's specific question from this legal case.\n\nUSER QUERY: "
  ++ userQuery ++
  "\nLEGAL CASE: " ++ documentName ++
  "\nFULL CONTENT: " ++ docContent ++
  "\n\nQUERY CLASSIFICATION: " ++ cls.reasoning ++
  "\n\nCRITICAL INSTRUCTIONS:\n1. Focus ONLY on information that directly answers the user's query\n2. Do not include irrelevant case details or background information\n3. Be concise and targeted - lawyers need precise answers, not comprehensive case summaries\n4. Include specific paragraph references and direct quotes where relevant\n5. If the case doesn't address the query, clearly state that\n\nFOCUS ON:\n"
  ++ focusText cls ++
  "\n\nRESPONSE FORMAT:\n" ++ responseFormatText cls ++
  "\n\nEXTRACTION:"

/-- Outcome of reading one document file through the file processor:
the file may be missing (`os.path.exists` fails), the read may raise, or
it yields the content and the extracted metadata dict. -/
inductive ReadOutcome where
  | missing
  | readError (msg : String)
  | ok (content : String) (metadata : List (String × String))

/-- `ReadingAgentNode.exec_async` for one document: returns the
`(document_name, summary, metadata)` triple; every failure path is caught
and recorded in the summary text, so the function never raises. -/
def readingExec (fileStore : String → ReadOutcome)
    (llm : String → Except String String) (userQuery : String)
    (cls : QueryClassification) (documentName : String) :
    String × String × List (String × String) :=
  match fileStore documentName with
  | .missing => (documentName, "Unable to read content for " ++ documentName, [])
  | .readError e =>
    (documentName, "Error reading " ++ documentName ++ ": " ++ e, [])
  | .ok content metadata =>
    match llm (extractionPrompt userQuery cls documentName content) with
    | .ok response => (documentName, response, metadata)
    | .error e =>
      (documentName, "Error reading " ++ documentName ++ ": " ++ e, metadata)

/-- Python dict assignment `d[k] = v`: replace in place or append. -/
def dictInsert {β : Type} (d : List (String × β)) (k : String) (v : β) :
    List (String × β) :=
  match d with
  | [] => [(k, v)]
  | (k', v') :: rest =>
    if k' = k then (k, v) :: rest else (k', v') :: dictInsert rest k v

/-- `ReadingAgentNode.post_async`: fold the result triples into the
`document_summaries` and `document_metadata` dicts (every exec result is a
3-tuple, so the backward-compatibility branch for 2-tuples never runs). -/
def readingPost (results : List (String × String × List (String × String))) :
    List (String × String) × List (String × List (String × String)) :=
  results.foldl
    (fun acc r => (dictInsert acc.1 r.1 r.2.1, dictInsert acc.2 r.1 r.2.2))
    ([], [])

/-! ### AggregationAgentNode.exec  (src/nodes_agents.py, lines 385–547) -/

/-- The fixed no-relevant-cases message. -/
def noCasesMessage : String :=
  "I apologize, but I could not find any relevant legal cases for your query. Please try rephrasing your question or providing more specific details."

/-- The per-case record built in `exec`'s first loop (the
`citation_map[citation]` read back immediately after assignment is the
hyperlink just computed). -/
structure CaseInfo where
  docName : String
  citation : String
  link : String
  summary : String
  hyperlink : String

/-- Build one `case_info_list` entry from a summary-map item. -/
def mkCaseInfo (documentMetadata : List (String × List (String × String)))
    (docName summary : String) : CaseInfo :=
  let metadata := (documentMetadata.lookup docName).getD []
  let citation := (metadata.lookup "citation").getD
    (pyReplace (pyReplace docName ".txt" "") " (CanLII)" "")
  let link := (metadata.lookup "link").getD ""
  let hyperlink :=
    if link ≠ "" then "[" ++ citation ++ "](" ++ link ++ ")" else citation
  ⟨docName, citation, link, summary, hyperlink⟩

/-- `sections_text` of `_get_query_specific_aggregation_prompt`. -/
def aggSectionsText (responseSections : List String) (numCases : ℕ) : String :=
  String.join ((responseSections.enum).map fun iSection =>
    if iSection.1 = 0 then
      "\n## " ++ iSection.2 ++
        "\n\n[Provide a direct, concise answer to the user's question based on ALL "
        ++ toString numCases ++ " cases]\n"
    else
      "\n## " ++ iSection.2 ++ "\n\n[Content for " ++ pyLower iSection.2 ++
        " synthesized from all relevant cases]\n") ++
  ("\n## Cases Referenced\n[List ALL " ++ toString numCases ++
    " cases with brief relevance to the query]\n")

/-- `_get_query_specific_aggregation_prompt`. -/
def aggregationPrompt (userQuery : String) (cls : QueryClassification)
    (allSummaries availableCitations : String) (numCases : ℕ)
    (languageInstruction : String) : String :=
  "You are a senior legal research assistant providing a focused response to a specific legal query. Your response will be displayed in a web interface that supports markdown formatting.\n\nüåê LANGUAGE REQUIREMENT: "
  ++ languageInstruction ++
  "\n\nUSER QUERY: " ++ userQuery ++
  "\n\nQUERY ANALYSIS: " ++ cls.reasoning ++
  "\n\nRELEVANT LEGAL CASES AND SUMMARIES (" ++ toString numCases ++
  " cases found):\n" ++ allSummaries ++
  "\n\nAVAILABLE CASE CITATIONS:\n" ++ availableCitations ++
  "\n\nCRITICAL INSTRUCTIONS - SYNTHESIS REQUIREMENT:\nüö® MANDATORY: You MUST analyze and synthesize information from ALL "
  ++ toString numCases ++
  " cases provided above\nüö® Do NOT focus on just one case - incorporate findings from EVERY relevant case\nüö® If multiple cases address the same issue, compare and contrast their approaches\nüö® If cases have different outcomes, explain the distinguishing factors\n\nFORMATTING INSTRUCTIONS:\n1. Answer ONLY what the user asked - do not provide unnecessary background or comprehensive case summaries\n2. Be concise and directly responsive to the query\n3. When citing cases, use ONLY the case citation format (e.g., \"R. v. Smith, 2025 ONCJ 123\") - do NOT include URLs\n4. Do NOT use asterisks (*) around case names - write them as plain text\n5. The frontend will automatically make case citations clickable\n6. Ground ALL statements in the provided case law\n7. If the cases don't address the query, clearly state that\n\nFOCUS AREAS: "
  ++ String.intercalate ", " cls.focusAreas ++
  "\n\nSYNTHESIS APPROACH:\n- STEP 1: Review EACH case individually and extract information relevant to the query\n- STEP 2: Identify patterns, similarities, and differences across ALL cases\n- STEP 3: Synthesize findings from ALL cases into a coherent response\n- STEP 4: Ensure every relevant case is mentioned and its contribution explained\n\nMANDATORY CASE-BY-CASE ANALYSIS:\nBefore writing your response, mentally go through each case and ask:\n1. What does this case contribute to answering the user's query?\n2. How does this case compare to the other cases?\n3. Should this case be mentioned in my response?\n\nRESPONSE STRUCTURE:\n"
  ++ aggSectionsText cls.responseSections numCases ++
  "\n\nRESPONSE:"

/-- `AggregationAgentNode.exec`: short-circuits on an empty summary map;
otherwise builds the combined context and makes exactly one synthesis
call, converting a raised error into the apology string. -/
def aggregationExec (llm : String → Except String String) (userQuery : String)
    (documentSummaries : List (String × String))
    (documentMetadata : List (String × List (String × String)))
    (cls : QueryClassification) (languageInstruction : String) : String :=
  if documentSummaries.isEmpty then noCasesMessage
  else
    let caseInfoList := documentSummaries.map fun ds =>
      mkCaseInfo documentMetadata ds.1 ds.2
    let allSummaries := "\n\n" ++ String.mk (List.replicate 50 '=') ++
      String.intercalate "\n\n" (caseInfoList.map fun c =>
        "CASE: " ++ c.hyperlink ++ "\nDOCUMENT FILE: " ++ c.docName ++
          "\nSUMMARY:\n" ++ c.summary)
    let availableCitations := String.intercalate "\n"
      (caseInfoList.map fun c => "- " ++ c.citation)
    match llm (aggregationPrompt userQuery cls allSummaries availableCitations
        caseInfoList.length languageInstruction) with
    | .ok response =>
      response ++ ("\n\n---\n\n### üìë Quick Case Access\n\n" ++
        String.join (caseInfoList.map fun c => "- " ++ c.hyperlink ++ "\n"))
    | .error e =>
      "I apologize, but there was an error synthesizing the legal research results: "
        ++ e

/-- Claim C3: a document with no retrieved chunks, or none with non-empty
text, is marked not relevant with the respective fixed rationale and
independently of the judge (no judge call can influence the result); a
judge call that raises is converted to a not-relevant verdict carrying
`"Error: "` plus the exception message.  `pruningExec` is a total
function, so the stage never raises. -/
theorem pruning_fail_closed (doc q : String) (chunks : List RChunk)
    (j j' : String → Except String String) (e : String) :
    (pruningExec j doc q [] =
      (doc, false, "No retrieved chunks available for analysis")) ∧
    (chunks ≠ [] → (∀ c ∈ chunks, c.text = "") →
      pruningExec j doc q chunks =
        (doc, false, "No chunk text available for analysis")) ∧
    ((∀ c ∈ chunks, c.text = "") →
      pruningExec j doc q chunks = pruningExec j' doc q chunks) ∧
    (chunkTextsOf chunks ≠ [] →
      j (pruningPrompt q doc
          (String.intercalate chunkSeparator (chunkTextsOf chunks))) =
        .error e →
      pruningExec j doc q chunks = (doc, false, "Error: " ++ e)) := by
  have hTexts : ∀ (hall : ∀ c ∈ chunks, c.text = ""),
      chunkTextsOf chunks = [] := by
    intro hall
    refine List.filter_eq_nil_iff.mpr fun t ht => ?_
    rcases List.mem_map.mp ht with ⟨c, hc, rfl⟩
    simp [hall c hc]
  refine ⟨by simp [pruningExec], ?_, ?_, ?_⟩
  · intro hne hall
    unfold pruningExec
    rw [if_neg (by simpa [List.isEmpty_iff] using hne),
      if_pos (by simp [hTexts hall])]
  · intro hall
    by_cases hne : chunks = []
    · subst hne; rfl
    · unfold pruningExec
      rw [if_neg (by simpa [List.isEmpty_iff] using hne),
        if_pos (by simp [hTexts hall]),
        if_neg (by simpa [List.isEmpty_iff] using hne),
        if_pos (by simp [hTexts hall])]
  · intro htne hj
    have hne : chunks ≠ [] := by
      intro h
      subst h
      exact htne rfl
    unfold pruningExec
    rw [if_neg (by simpa [List.isEmpty_iff] using hne),
      if_neg (by simpa [List.isEmpty_iff] using htne), hj]

/-- Witness for C3: the three fail-closed behaviours at concrete inputs. -/
theorem pruning_fail_closed_witness :
    (pruningExec (fun _ => Except.ok "YES - on point") "d1.txt" "bail" [] =
      ("d1.txt", false, "No retrieved chunks available for analysis")) ∧
    (pruningExec (fun _ => Except.ok "YES - on point") "d1.txt" "bail" [⟨""⟩] =
      ("d1.txt", false, "No chunk text available for analysis")) ∧
    (pruningExec (fun _ => Except.ok "YES - on point") "d1.txt" "bail" [⟨""⟩] =
      pruningExec (fun _ => Except.error "nope") "d1.txt" "bail" [⟨""⟩]) ∧
    (pruningExec (fun _ => Except.error "boom") "d1.txt" "bail" [⟨"some text"⟩] =
      ("d1.txt", false, "Error: boom")) := by
  obtain ⟨h1, h2, h3, _⟩ := pruning_fail_closed "d1.txt" "bail" [⟨""⟩]
    (fun _ => Except.ok "YES - on point") (fun _ => Except.error "nope") "boom"
  obtain ⟨_, _, _, h4⟩ := pruning_fail_closed "d1.txt" "bail" [⟨"some text"⟩]
    (fun _ => Except.error "boom") (fun _ => Except.ok "YES - on point") "boom"
  exact ⟨h1, h2 (by decide) (by decide), h3 (by decide),
    h4 (by decide) rfl⟩

/-- Claim C8: when the judge call succeeds, the relevance verdict is
exactly `response.strip().upper().startswith("YES")` — the document is
relevant iff the reply, stripped of surrounding whitespace and uppercased,
begins with `"YES"`; any other reply (empty or malformed included) yields
not relevant. -/
theorem pruning_verdict_from_reply (doc q : String) (chunks : List RChunk)
    (j : String → Except String String) (resp : String)
    (hne : chunkTextsOf chunks ≠ [])
    (hok : j (pruningPrompt q doc
        (String.intercalate chunkSeparator (chunkTextsOf chunks))) = .ok resp) :
    (pruningExec j doc q chunks).2.1 = true ↔
      pyStartsWith (pyUpper (pyStrip resp)) "YES" = true := by
  have hcne : chunks ≠ [] := by
    intro h
    subst h
    exact hne rfl
  unfold pruningExec
  rw [if_neg (by simpa [List.isEmpty_iff] using hcne),
    if_neg (by simpa [List.isEmpty_iff] using hne), hok]

/-- Witness for C8 at a concrete lower-case reply with surrounding
whitespace. -/
theorem pruning_verdict_from_reply_witness :
    (pruningExec (fun _ => Except.ok "  yes - squarely on point ") "d1.txt"
        "bail" [⟨"chunk text"⟩]).2.1 = true ↔
      pyStartsWith (pyUpper (pyStrip "  yes - squarely on point ")) "YES" =
        true :=
  pruning_verdict_from_reply "d1.txt" "bail" [⟨"chunk text"⟩]
    (fun _ => Except.ok "  yes - squarely on point ")
    "  yes - squarely on point " (by decide) rfl

lemma dictInsert_keys {β : Type} (d : List (String × β)) (k : String) (v : β) :
    (dictInsert d k v).map Prod.fst =
      if k ∈ d.map Prod.fst then d.map Prod.fst else d.map Prod.fst ++ [k] := by
  induction d with
  | nil => simp [dictInsert]
  | cons a t ih =>
    by_cases hk : a.1 = k
    · simp [dictInsert, hk]
    · have : dictInsert (a :: t) k v = a :: dictInsert t k v := by
        rw [show (a : String × β) = (a.1, a.2) from rfl, dictInsert]
        simp [hk]
      rw [this]
      simp only [List.map_cons, ih]
      by_cases hmem : k ∈ t.map Prod.fst
      · rw [if_pos hmem, if_pos (by simp [hmem])]
      · rw [if_neg hmem, if_neg (by simp [hmem, Ne.symm hk])]
        simp

lemma readingFold_keys_congr
    (results : List (String × String × List (String × String))) :
    ∀ (acc : List (String × String) × List (String × List (String × String))),
      acc.1.map Prod.fst = acc.2.map Prod.fst →
      (results.foldl
        (fun acc r => (dictInsert acc.1 r.1 r.2.1, dictInsert acc.2 r.1 r.2.2))
        acc).1.map Prod.fst =
      (results.foldl
        (fun acc r => (dictInsert acc.1 r.1 r.2.1, dictInsert acc.2 r.1 r.2.2))
        acc).2.map Prod.fst := by
  induction results with
  | nil => intro acc h; exact h
  | cons r rest ih =>
    intro acc h
    simp only [List.foldl_cons]
    exact ih _ (by rw [dictInsert_keys, dictInsert_keys, h])

lemma readingFold_keys_of_nodup
    (results : List (String × String × List (String × String))) :
    ∀ (acc : List (String × String) × List (String × List (String × String))),
      (∀ r ∈ results, r.1 ∉ acc.1.map Prod.fst) →
      (results.map fun r => r.1).Nodup →
      (results.foldl
        (fun acc r => (dictInsert acc.1 r.1 r.2.1, dictInsert acc.2 r.1 r.2.2))
        acc).1.map Prod.fst =
        acc.1.map Prod.fst ++ results.map fun r => r.1 := by
  induction results with
  | nil => intro acc _ _; simp
  | cons r rest ih =>
    intro acc hfresh hnd
    simp only [List.foldl_cons, List.map_cons]
    have hmem : r.1 ∉ acc.1.map Prod.fst := hfresh r (List.mem_cons_self _ _)
    have hkeys : (dictInsert acc.1 r.1 r.2.1).map Prod.fst =
        acc.1.map Prod.fst ++ [r.1] := by
      rw [dictInsert_keys, if_neg hmem]
    have hnd' := List.nodup_cons.mp hnd
    have := ih (dictInsert acc.1 r.1 r.2.1, dictInsert acc.2 r.1 r.2.2)
      (fun s hs => by
        rw [hkeys]
        intro hsmem
        rcases List.mem_append.mp hsmem with hL | hR
        · exact hfresh s (List.mem_cons_of_mem _ hs) hL
        · rcases List.mem_singleton.mp hR with hEq
          have hmem' : r.1 ∈ List.map (fun x => x.1) rest := by
            rw [← hEq]
            exact List.mem_map_of_mem _ hs
          exact hnd'.1 hmem')
      hnd'.2
    rw [this, hkeys, List.append_assoc, List.singleton_append]

lemma readingExec_fst (fileStore : String → ReadOutcome)
    (llm : String → Except String String) (q : String)
    (cls : QueryClassification) (doc : String) :
    (readingExec fileStore llm q cls doc).1 = doc := by
  unfold readingExec
  cases fileStore doc with
  | missing => rfl
  | readError e => rfl
  | ok content metadata =>
    cases hllm : llm (extractionPrompt q cls doc content) <;> simp [hllm]

/-- Claim C10: after the extraction stage, the summary map and the
metadata map have exactly the same key list; and when the relevant
document list has no duplicates, that key list is exactly the relevant
document list — every relevant document contributes one entry to each map,
whatever the file store and the extraction call did for it. -/
theorem reading_maps_same_keys (fileStore : String → ReadOutcome)
    (llm : String → Except String String) (q : String)
    (cls : QueryClassification) (relevantDocuments : List String) :
    ((readingPost (relevantDocuments.map
        (readingExec fileStore llm q cls))).1.map Prod.fst =
      (readingPost (relevantDocuments.map
        (readingExec fileStore llm q cls))).2.map Prod.fst) ∧
    (relevantDocuments.Nodup →
      (readingPost (relevantDocuments.map
        (readingExec fileStore llm q cls))).1.map Prod.fst =
        relevantDocuments) := by
  have hfst : (relevantDocuments.map (readingExec fileStore llm q cls)).map
      (fun r => r.1) = relevantDocuments := by
    rw [List.map_map]
    trans relevantDocuments.map id
    · apply List.map_congr_left
      intro d _
      exact readingExec_fst fileStore llm q cls d
    · exact List.map_id _
  constructor
  · exact readingFold_keys_congr _ ([], []) rfl
  · intro hnd
    unfold readingPost
    rw [readingFold_keys_of_nodup _ ([], []) (fun r _ => by simp)
      (by rw [hfst]; exact hnd)]
    rw [hfst]
    rfl

/-- Witness for C10 at a two-document list with one missing file and one
failing extraction call. -/
theorem reading_maps_same_keys_witness :
    ((readingPost ((["a.txt", "b.txt"] : List String).map
        (readingExec (fun d => if d = "a.txt" then ReadOutcome.missing
            else ReadOutcome.ok "body" [("citation", "C1")])
          (fun _ => Except.error "timeout") "q"
          ⟨"general", 0, "r", [], []⟩))).1.map Prod.fst =
      (readingPost ((["a.txt", "b.txt"] : List String).map
        (readingExec (fun d => if d = "a.txt" then ReadOutcome.missing
            else ReadOutcome.ok "body" [("citation", "C1")])
          (fun _ => Except.error "timeout") "q"
          ⟨"general", 0, "r", [], []⟩))).2.map Prod.fst) ∧
    ((readingPost ((["a.txt", "b.txt"] : List String).map
        (readingExec (fun d => if d = "a.txt" then ReadOutcome.missing
            else ReadOutcome.ok "body" [("citation", "C1")])
          (fun _ => Except.error "timeout") "q"
          ⟨"general", 0, "r", [], []⟩))).1.map Prod.fst =
      ["a.txt", "b.txt"]) := by
  obtain ⟨h1, h2⟩ := reading_maps_same_keys
    (fun d => if d = "a.txt" then ReadOutcome.missing
      else ReadOutcome.ok "body" [("citation", "C1")])
    (fun _ => Except.error "timeout") "q" ⟨"general", 0, "r", [], []⟩
    ["a.txt", "b.txt"]
  exact ⟨h1, h2 (by decide)⟩

/-- Claim C6: an empty summary map short-circuits to the fixed
no-relevant-cases message without the synthesis call being able to
influence the result (the output is identical for every external function);
with a non-empty summary map, a synthesis call that raises yields the
apology string embedding the error text instead of raising. -/
theorem aggregation_short_circuit (llm llm' : String → Except String String)
    (q : String) (meta : List (String × List (String × String)))
    (cls : QueryClassification) (lang : String)
    (summaries : List (String × String)) (e : String) :
    (aggregationExec llm q [] meta cls lang = noCasesMessage) ∧
    (aggregationExec llm q [] meta cls lang =
      aggregationExec llm' q [] meta cls lang) ∧
    (summaries ≠ [] → (∀ p, llm p = .error e) →
      aggregationExec llm q summaries meta cls lang =
        "I apologize, but there was an error synthesizing the legal research results: "
          ++ e) := by
  refine ⟨rfl, rfl, ?_⟩
  intro hne hllm
  unfold aggregationExec
  rw [if_neg (by simpa [List.isEmpty_iff] using hne)]
  simp only [hllm]

/-- Witness for C6: a one-entry summary map with an always-raising
synthesis call. -/
theorem aggregation_short_circuit_witness :
    aggregationExec (fun _ => Except.error "rate limited") "q"
        [("a.txt", "summary")] [] ⟨"general", 0, "r", [], []⟩
        "Respond in clear, professional English." =
      "I apologize, but there was an error synthesizing the legal research results: "
        ++ "rate limited" :=
  (aggregation_short_circuit (fun _ => Except.error "rate limited")
      (fun _ => Except.ok "x") "q" [] ⟨"general", 0, "r", [], []⟩
      "Respond in clear, professional English." [("a.txt", "summary")]
      "rate limited").2.2 (by decide) (fun _ => rfl)

end LawYaar
